import Mathlib

/-!
Shallow embedding of `llm-knowledge-graph/create_my_kg.py`, a one-shot batch
pipeline: load CSV documents, split them into chunks, and for each chunk
embed its text, upsert Document/Chunk nodes into a graph database, extract an
entity/relationship subgraph with an external language model, attach
`HAS_ENTITY` relationships from the chunk to every extracted node, write the
subgraph, and finally create a vector index.

External services (the loader/splitter library, the embedding model, the
extraction model, and the graph database's query semantics) are not part of
the repository's source; where a claim depends on them they are modelled from
the specification, as noted in the doc comments of the relevant definitions.
-/

namespace KGPipeline

/-- A loaded document or a chunk produced by the splitter: the langchain
`Document` carries `metadata["source"]`, `metadata["page"]` and
`page_content`.  Modelled from the spec: the loader's output is an ordered
sequence of items "each with source filename and page/index metadata". -/
structure Doc where
  source : String
  page : Nat
  page_content : String
deriving DecidableEq, Repr

/-- Python `os.path.basename`: the part of the path after the last `/` separator.
Modelled from the spec (the Python standard library is not in the source
tree); on POSIX `basename` keeps everything after the final slash. -/
def basename (p : String) : String :=
  String.mk ((p.data.reverse.takeWhile (fun c => c ≠ '/')).reverse)

/-- Python's `str` on a non-negative integer: canonical decimal digits, most
significant first, and `"0"` for zero.  Modelled from the spec side of the
f-string `f"{filename}.{page}"` (the Python runtime is not in the source
tree). -/
def natStr (n : Nat) : String :=
  if n = 0 then "0"
  else String.mk (((Nat.digits 10 n).map Nat.digitChar).reverse)

/-- The id `chunk_id = f"{filename}.{chunk.metadata['page']}"` with
`filename = os.path.basename(chunk.metadata["source"])`
(create_my_kg.py, lines 87-88). -/
def chunk_id (c : Doc) : String :=
  basename c.source ++ "." ++ natStr c.page

/-! ### The splitter

`CharacterTextSplitter(separator="\n\n", chunk_size=1500, chunk_overlap=200)`
(create_my_kg.py, lines 79-83).  The splitter itself lives in the langchain
library, outside the source tree; it is modelled from the spec: "splits each
document's text into overlapping chunks by character count", "fixed
separator, fixed chunk size, and fixed overlap — purely mechanical text
segmentation".  The model splits the text on the separator and then greedily
re-merges the parts (joined by the separator) into chunks of at most
`chunk_size` characters, carrying the final `chunk_overlap` characters of an
emitted chunk into the next one; each chunk inherits the document's
metadata. -/

/-- Does `pre` occur at the start of `cs`? -/
def startsWithList : List Char → List Char → Bool
  | [], _ => true
  | _ :: _, [] => false
  | a :: as, b :: bs => a = b && startsWithList as bs

/-- Split a character list on every occurrence of the separator
`s0 :: srest` (a nonempty separator, as `"\n\n"` is).  The first argument is
fuel bounding the number of steps; each step consumes at least one input
character, so `input.length` fuel suffices (structural recursion on the fuel
keeps the function kernel-computable). -/
def splitOnSep (s0 : Char) (srest : List Char) : Nat → List Char → List Char → List (List Char)
  | 0, acc, _ => [acc.reverse]
  | _ + 1, acc, [] => [acc.reverse]
  | fuel + 1, acc, c :: cs =>
    if startsWithList (s0 :: srest) (c :: cs) then
      acc.reverse :: splitOnSep s0 srest fuel [] (List.drop srest.length cs)
    else
      splitOnSep s0 srest fuel (c :: acc) cs

/-- The last `n` elements of a list (the overlap carried between chunks). -/
def lastN (n : Nat) (l : List Char) : List Char :=
  l.drop (l.length - n)

/-- Greedily merge separator-split parts back into chunks of at most `size`
characters, joined by the separator; when a chunk is emitted, its last `ovl`
characters seed the next chunk.  Modelled from the spec (see above). -/
def mergeParts (sep : List Char) (size ovl : Nat) : List Char → List (List Char) → List (List Char)
  | cur, [] => if cur.isEmpty then [] else [cur]
  | cur, p :: ps =>
    let cand := if cur.isEmpty then p else cur ++ sep ++ p
    if cand.length ≤ size then mergeParts sep size ovl cand ps
    else if cur.isEmpty then p :: mergeParts sep size ovl [] ps
    else cur :: mergeParts sep size ovl (lastN ovl cur ++ sep ++ p) ps

/-- Split one text into chunk texts: split on the separator, then merge. -/
def splitText (sep : String) (size ovl : Nat) (text : String) : List String :=
  match sep.data with
  | [] => [text]
  | s0 :: srest =>
    (mergeParts sep.data size ovl []
        (splitOnSep s0 srest text.data.length [] text.data)).map
      (fun cs => String.mk cs)

/-- The splitter configuration: separator, chunk size, chunk overlap. -/
structure SplitterConfig where
  separator : String
  chunk_size : Nat
  chunk_overlap : Nat
deriving DecidableEq, Repr

/-- The configuration `CharacterTextSplitter(separator="\n\n", chunk_size=1500,
chunk_overlap=200)` (create_my_kg.py, lines 79-83). -/
def text_splitter : SplitterConfig :=
  { separator := "\n\n", chunk_size := 1500, chunk_overlap := 200 }

/-- The call `text_splitter.split_documents(docs)`: split every document's text and
give each resulting chunk the originating document's metadata.  Modelled
from the spec: the splitter is "purely mechanical text segmentation" whose
output chunks carry "source filename and page/index metadata". -/
def split_documents (cfg : SplitterConfig) (docs : List Doc) : List Doc :=
  docs.flatMap (fun d =>
    (splitText cfg.separator cfg.chunk_size cfg.chunk_overlap d.page_content).map
      (fun t => { d with page_content := t }))

/-- The loader configuration: directory path, glob pattern
(create_my_kg.py, lines 15 and 77). -/
structure LoaderConfig where
  path : String
  glob : String
deriving DecidableEq, Repr

/-- The constants `DATA_PATH = "llm-knowledge-graph/data/course/csvs"` and
`DirectoryLoader(DATA_PATH, glob="**/*.csv", loader_cls=CSVLoader)`. -/
def loader : LoaderConfig :=
  { path := "llm-knowledge-graph/data/course/csvs", glob := "**/*.csv" }

/-! ### Graph documents

`langchain_community.graphs.graph_document.Node` / `Relationship` /
`GraphDocument`: an extracted node has an `id` and a `type`; a relationship
has a `source` node, a `target` node and a `type`; a graph document holds a
list of nodes and a list of relationships (the library type is outside the
source tree; these fields are exactly the ones create_my_kg.py uses). -/

/-- An extracted entity node (`Node(id=..., type=...)`). -/
structure GNode where
  id : String
  type : String
deriving DecidableEq, Repr

/-- An extracted relationship (`Relationship(source=..., target=..., type=...)`). -/
structure GRel where
  source : GNode
  target : GNode
  type : String
deriving DecidableEq, Repr

/-- A graph document returned by `convert_to_graph_documents`. -/
structure GraphDocument where
  nodes : List GNode
  relationships : List GRel
deriving DecidableEq, Repr

/-- The `HAS_ENTITY` relationship appended for one extracted node:
`Relationship(source=chunk_node, target=node, type="HAS_ENTITY")`
(create_my_kg.py, lines 127-133). -/
def hasEntityRel (cid : String) (n : GNode) : GRel :=
  { source := { id := cid, type := "Chunk" }, target := n, type := "HAS_ENTITY" }

/-- The inner loop over `graph_doc.nodes` (create_my_kg.py, lines 119-134):
build `chunk_node = Node(id=chunk_id, type="Chunk")` and append a
`HAS_ENTITY` relationship from it to every node of the graph document. -/
def attachEntities (cid : String) (gd : GraphDocument) : GraphDocument :=
  { gd with relationships := gd.relationships ++ gd.nodes.map (hasEntityRel cid) }

/-! ### The graph database

The database is external; its state and the semantics of the two Cypher
statements and of `add_graph_documents` are modelled from the spec:
Document and Chunk nodes are "upserted (merge-by-id), never duplicated",
the subgraph is "merged ... into the store", and the index statement is
"create vector index if not exists" with 1536 dimensions and cosine
similarity. -/

/-- A stored Chunk node: its id, and its `text` and `textEmbedding`
properties (absent until the respective `SET` runs).  The scalar type of
embedding vectors is a parameter `α` (floats are opaque to the pipeline). -/
structure ChunkRow (α : Type) where
  id : String
  text : Option String
  textEmbedding : Option (List α)
deriving DecidableEq, Repr

/-- A vector index as declared by `CREATE VECTOR INDEX`. -/
structure VectorIndex where
  name : String
  label : String
  prop : String
  dimensions : Nat
  similarity : String
deriving DecidableEq, Repr

/-- The graph database state: Document node ids, Chunk rows, `PART_OF`
edges (chunk id, document id), the merged entity subgraph, and the declared
vector indexes. -/
@[ext]
structure DBState (α : Type) where
  documents : List String
  chunks : List (ChunkRow α)
  partOf : List (String × String)
  entityNodes : List GNode
  entityRels : List GRel
  indexes : List VectorIndex
deriving DecidableEq, Repr

/-- The empty database. -/
def DBState.empty (α : Type) : DBState α :=
  { documents := [], chunks := [], partOf := [], entityNodes := [],
    entityRels := [], indexes := [] }

/-- Cypher `MERGE (d:Document {id: $filename})`: add the id if absent. -/
def mergeDocument (s : DBState α) (fn : String) : DBState α :=
  if fn ∈ s.documents then s else { s with documents := s.documents ++ [fn] }

/-- Cypher `MERGE (c:Chunk {id: $chunk_id})`: add a bare row if absent. -/
def mergeChunk (s : DBState α) (cid : String) : DBState α :=
  if s.chunks.any (fun r => r.id = cid) then s
  else { s with chunks := s.chunks ++ [{ id := cid, text := none, textEmbedding := none }] }

/-- Cypher `SET c.text = $text` on the chunk with id `cid`. -/
def setChunkText (s : DBState α) (cid : String) (t : String) : DBState α :=
  { s with chunks := s.chunks.map (fun r => if r.id = cid then { r with text := some t } else r) }

/-- Cypher `MERGE (d)<-[:PART_OF]-(c)`: add the edge if absent. -/
def mergePartOf (s : DBState α) (cid fn : String) : DBState α :=
  if (cid, fn) ∈ s.partOf then s else { s with partOf := s.partOf ++ [(cid, fn)] }

/-- Cypher `db.create.setNodeVectorProperty(c, 'textEmbedding', $embedding)`. -/
def setChunkEmbedding (s : DBState α) (cid : String) (e : List α) : DBState α :=
  { s with chunks := s.chunks.map (fun r => if r.id = cid then { r with textEmbedding := some e } else r) }

/-- The per-chunk write `graph.query(...)` (create_my_kg.py, lines 104-113):
merge the Document, merge the Chunk, set its text, merge the `PART_OF`
edge, set the vector property. -/
def writeChunkQuery (s : DBState α) (fn cid text : String) (emb : List α) : DBState α :=
  setChunkEmbedding (mergePartOf (setChunkText (mergeChunk (mergeDocument s fn) cid) cid text) cid fn) cid emb

/-- The call `graph.add_graph_documents([gd])` for one graph document: merge each
node, then each relationship, into the store (absent ones appended). -/
def addGraphDocument (s : DBState α) (gd : GraphDocument) : DBState α :=
  { s with
    entityNodes := gd.nodes.foldl (fun ns n => if n ∈ ns then ns else ns ++ [n]) s.entityNodes
    entityRels := gd.relationships.foldl (fun rs r => if r ∈ rs then rs else rs ++ [r]) s.entityRels }

/-- The call `graph.add_graph_documents(graph_docs)` (create_my_kg.py, line 136). -/
def addGraphDocuments (s : DBState α) (gds : List GraphDocument) : DBState α :=
  gds.foldl addGraphDocument s

/-- The index declared by the final statement (create_my_kg.py, lines
139-146): name `chunkVector`, on `(c:Chunk)` over `c.textEmbedding`,
1536 dimensions, cosine similarity. -/
def chunkVectorIndex : VectorIndex :=
  { name := "chunkVector", label := "Chunk", prop := "textEmbedding",
    dimensions := 1536, similarity := "cosine" }

/-- Cypher `CREATE VECTOR INDEX chunkVector IF NOT EXISTS ...`: a no-op when an
index of that name exists, otherwise add `chunkVectorIndex`. -/
def createVectorIndex (s : DBState α) : DBState α :=
  if s.indexes.any (fun i => i.name = "chunkVector") then s
  else { s with indexes := s.indexes ++ [chunkVectorIndex] }

/-! ### The pipeline

The loop body (create_my_kg.py, lines 87-136) and the final index statement,
instrumented with an event trace recording each external operation in
program order.  The embedding model and the extraction model are external
services, passed as functions `embed` and `extract`
(`convert_to_graph_documents([chunk])` returns a list of graph documents). -/

/-- One observable external operation of the run. -/
inductive Event where
  /-- the call `embedding_provider.embed_query(chunk.page_content)` -/
  | embedE (cid : String)
  /-- the Document/Chunk upsert `graph.query(...)` -/
  | writeChunkE (cid : String)
  /-- the call `doc_transformer.convert_to_graph_documents([chunk])` -/
  | extractE (cid : String)
  /-- The call `graph.add_graph_documents(graph_docs)` -/
  | writeGraphE (cid : String)
  /-- the final `CREATE VECTOR INDEX` statement -/
  | createIndexE
deriving DecidableEq, Repr

/-- The loop body for one chunk (create_my_kg.py, lines 87-136): compute
`filename` and `chunk_id`, embed the chunk text, run the Document/Chunk
upsert query, extract graph documents, append the `HAS_ENTITY`
relationships, and write the graph documents; the trace records the four
external operations in that order. -/
def processChunk (embed : String → List α) (extract : Doc → List GraphDocument)
    (st : DBState α × List Event) (chunk : Doc) : DBState α × List Event :=
  let s := st.1
  let tr := st.2
  let filename := basename chunk.source
  let cid := chunk_id chunk
  let emb := embed chunk.page_content
  let tr := tr ++ [Event.embedE cid]
  let s := writeChunkQuery s filename cid chunk.page_content emb
  let tr := tr ++ [Event.writeChunkE cid]
  let gds := (extract chunk).map (attachEntities cid)
  let tr := tr ++ [Event.extractE cid]
  let s := addGraphDocuments s gds
  let tr := tr ++ [Event.writeGraphE cid]
  (s, tr)

/-- The whole run: the `for chunk in chunks` loop followed by the single
`CREATE VECTOR INDEX` statement. -/
def runPipeline (embed : String → List α) (extract : Doc → List GraphDocument)
    (s0 : DBState α) (chunks : List Doc) : DBState α × List Event :=
  let st := chunks.foldl (processChunk embed extract) (s0, [])
  (createVectorIndex st.1, st.2 ++ [Event.createIndexE])

/-! ### The fallible model

The same pipeline with every external call allowed to fail, for the
error-handling claims.  The script has no `try`/`except`, no retry and no
catch-and-continue, so a failure of any call is modelled by the whole run
returning that failure; the graph database is external state, so an error
result carries the database state as it stands at the moment of failure
(each single Cypher statement is transactional: it either fully applies or
leaves the store unchanged). -/

/-- The loop body for one chunk, where the embedding call, the two
`graph.query`-style writes and the extraction call may fail: `embed` and
`extract` return `Except`; `writeOk c`/`addOk c` give the error, if any, of
the Document/Chunk upsert and of `add_graph_documents` on chunk `c`.  The
first failing call aborts the body; the error carries the database state at
that point. -/
def processChunkE (embed : String → Except ε (List α))
    (extract : Doc → Except ε (List GraphDocument))
    (writeOk : Doc → Option ε) (addOk : Doc → Option ε)
    (s : DBState α) (chunk : Doc) : Except (ε × DBState α) (DBState α) :=
  let filename := basename chunk.source
  let cid := chunk_id chunk
  match embed chunk.page_content with
  | .error e => .error (e, s)
  | .ok emb =>
    match writeOk chunk with
    | some e => .error (e, s)
    | none =>
      let s1 := writeChunkQuery s filename cid chunk.page_content emb
      match extract chunk with
      | .error e => .error (e, s1)
      | .ok gds =>
        match addOk chunk with
        | some e => .error (e, s1)
        | none => .ok (addGraphDocuments s1 (gds.map (attachEntities cid)))

/-- The `for chunk in chunks` loop in the fallible model: the first failing
chunk aborts the loop, and there is no retry and no catch-and-continue. -/
def runLoopE (embed : String → Except ε (List α))
    (extract : Doc → Except ε (List GraphDocument))
    (writeOk : Doc → Option ε) (addOk : Doc → Option ε)
    (s : DBState α) : List Doc → Except (ε × DBState α) (DBState α)
  | [] => .ok s
  | c :: cs =>
    match processChunkE embed extract writeOk addOk s c with
    | .error es => .error es
    | .ok s1 => runLoopE embed extract writeOk addOk s1 cs

/-- The whole fallible run: loading may fail (the loader is an external
library call), then the chunk loop runs, then the index statement. -/
def runPipelineE (load : Except ε (List Doc))
    (embed : String → Except ε (List α))
    (extract : Doc → Except ε (List GraphDocument))
    (writeOk : Doc → Option ε) (addOk : Doc → Option ε)
    (s0 : DBState α) : Except (ε × DBState α) (DBState α) :=
  match load with
  | .error e => .error (e, s0)
  | .ok docs =>
    match runLoopE embed extract writeOk addOk s0 (split_documents text_splitter docs) with
    | .error es => .error es
    | .ok s => .ok (createVectorIndex s)

/-! ### Formalized claim predicates and concrete fixtures -/

/-- Formalization of the claimed per-chunk order "embed, then extract, then
write": scanning the trace left to right, a write event for a chunk is only
permitted after that chunk's extraction event; `seen` collects the chunk ids
whose extraction has already happened. -/
def noWriteBeforeExtract : List String → List Event → Bool
  | _, [] => true
  | seen, Event.extractE cid :: tr => noWriteBeforeExtract (cid :: seen) tr
  | seen, Event.writeChunkE cid :: tr => seen.contains cid && noWriteBeforeExtract seen tr
  | seen, Event.writeGraphE cid :: tr => seen.contains cid && noWriteBeforeExtract seen tr
  | seen, Event.embedE _ :: tr => noWriteBeforeExtract seen tr
  | seen, Event.createIndexE :: tr => noWriteBeforeExtract seen tr

/-- A concrete CSV document (one loaded row) whose text is 1500 characters
followed by the separator, so the splitter produces two chunks from it. -/
def twoChunkDoc : Doc :=
  { source := "a.csv", page := 0,
    page_content := String.mk (List.replicate 1500 'x' ++ ['\n', '\n']) }

/-- A concrete small document used to instantiate theorems. -/
def sampleDoc : Doc :=
  { source := "dir/a.csv", page := 0, page_content := "hello" }

/-- A concrete embedding function: every text maps to the zero vector of
length 1536 (the dimensionality of `text-embedding-ada-002`). -/
def zeroEmbed (_t : String) : List Int :=
  List.replicate 1536 0

/-- A concrete extraction function returning no graph documents. -/
def noExtract (_c : Doc) : List GraphDocument :=
  []

/-- A concrete extraction function returning one graph document with a
single `Policy` entity node and no relationships. -/
def oneNodeExtract (_c : Doc) : List GraphDocument :=
  [{ nodes := [{ id := "p1", type := "Policy" }], relationships := [] }]

/-! ## Lemmas

Frame lemmas: each database operation touches only the fields its Cypher
statement mentions. -/

variable {α : Type}

@[simp] theorem mergeDocument_chunks (s : DBState α) (fn : String) :
    (mergeDocument s fn).chunks = s.chunks := by
  unfold mergeDocument; split <;> rfl

@[simp] theorem mergeDocument_partOf (s : DBState α) (fn : String) :
    (mergeDocument s fn).partOf = s.partOf := by
  unfold mergeDocument; split <;> rfl

@[simp] theorem mergeDocument_entityNodes (s : DBState α) (fn : String) :
    (mergeDocument s fn).entityNodes = s.entityNodes := by
  unfold mergeDocument; split <;> rfl

@[simp] theorem mergeDocument_entityRels (s : DBState α) (fn : String) :
    (mergeDocument s fn).entityRels = s.entityRels := by
  unfold mergeDocument; split <;> rfl

@[simp] theorem mergeDocument_indexes (s : DBState α) (fn : String) :
    (mergeDocument s fn).indexes = s.indexes := by
  unfold mergeDocument; split <;> rfl

@[simp] theorem mergeChunk_documents (s : DBState α) (cid : String) :
    (mergeChunk s cid).documents = s.documents := by
  unfold mergeChunk; split <;> rfl

@[simp] theorem mergeChunk_partOf (s : DBState α) (cid : String) :
    (mergeChunk s cid).partOf = s.partOf := by
  unfold mergeChunk; split <;> rfl

@[simp] theorem mergeChunk_entityNodes (s : DBState α) (cid : String) :
    (mergeChunk s cid).entityNodes = s.entityNodes := by
  unfold mergeChunk; split <;> rfl

@[simp] theorem mergeChunk_entityRels (s : DBState α) (cid : String) :
    (mergeChunk s cid).entityRels = s.entityRels := by
  unfold mergeChunk; split <;> rfl

@[simp] theorem mergeChunk_indexes (s : DBState α) (cid : String) :
    (mergeChunk s cid).indexes = s.indexes := by
  unfold mergeChunk; split <;> rfl

@[simp] theorem setChunkText_documents (s : DBState α) (cid t : String) :
    (setChunkText s cid t).documents = s.documents := rfl

@[simp] theorem setChunkText_partOf (s : DBState α) (cid t : String) :
    (setChunkText s cid t).partOf = s.partOf := rfl

@[simp] theorem setChunkText_entityNodes (s : DBState α) (cid t : String) :
    (setChunkText s cid t).entityNodes = s.entityNodes := rfl

@[simp] theorem setChunkText_entityRels (s : DBState α) (cid t : String) :
    (setChunkText s cid t).entityRels = s.entityRels := rfl

@[simp] theorem setChunkText_indexes (s : DBState α) (cid t : String) :
    (setChunkText s cid t).indexes = s.indexes := rfl

@[simp] theorem mergePartOf_documents (s : DBState α) (cid fn : String) :
    (mergePartOf s cid fn).documents = s.documents := by
  unfold mergePartOf; split <;> rfl

@[simp] theorem mergePartOf_chunks (s : DBState α) (cid fn : String) :
    (mergePartOf s cid fn).chunks = s.chunks := by
  unfold mergePartOf; split <;> rfl

@[simp] theorem mergePartOf_entityNodes (s : DBState α) (cid fn : String) :
    (mergePartOf s cid fn).entityNodes = s.entityNodes := by
  unfold mergePartOf; split <;> rfl

@[simp] theorem mergePartOf_entityRels (s : DBState α) (cid fn : String) :
    (mergePartOf s cid fn).entityRels = s.entityRels := by
  unfold mergePartOf; split <;> rfl

@[simp] theorem mergePartOf_indexes (s : DBState α) (cid fn : String) :
    (mergePartOf s cid fn).indexes = s.indexes := by
  unfold mergePartOf; split <;> rfl

@[simp] theorem setChunkEmbedding_documents (s : DBState α) (cid : String) (e : List α) :
    (setChunkEmbedding s cid e).documents = s.documents := rfl

@[simp] theorem setChunkEmbedding_partOf (s : DBState α) (cid : String) (e : List α) :
    (setChunkEmbedding s cid e).partOf = s.partOf := rfl

@[simp] theorem setChunkEmbedding_entityNodes (s : DBState α) (cid : String) (e : List α) :
    (setChunkEmbedding s cid e).entityNodes = s.entityNodes := rfl

@[simp] theorem setChunkEmbedding_entityRels (s : DBState α) (cid : String) (e : List α) :
    (setChunkEmbedding s cid e).entityRels = s.entityRels := rfl

@[simp] theorem setChunkEmbedding_indexes (s : DBState α) (cid : String) (e : List α) :
    (setChunkEmbedding s cid e).indexes = s.indexes := rfl

@[simp] theorem addGraphDocument_documents (s : DBState α) (gd : GraphDocument) :
    (addGraphDocument s gd).documents = s.documents := rfl

@[simp] theorem addGraphDocument_chunks (s : DBState α) (gd : GraphDocument) :
    (addGraphDocument s gd).chunks = s.chunks := rfl

@[simp] theorem addGraphDocument_partOf (s : DBState α) (gd : GraphDocument) :
    (addGraphDocument s gd).partOf = s.partOf := rfl

@[simp] theorem addGraphDocument_indexes (s : DBState α) (gd : GraphDocument) :
    (addGraphDocument s gd).indexes = s.indexes := rfl

@[simp] theorem addGraphDocuments_documents (s : DBState α) (gds : List GraphDocument) :
    (addGraphDocuments s gds).documents = s.documents := by
  induction gds generalizing s with
  | nil => rfl
  | cons gd gds ih => simp [addGraphDocuments, List.foldl_cons] at ih ⊢; exact ih _

@[simp] theorem addGraphDocuments_chunks (s : DBState α) (gds : List GraphDocument) :
    (addGraphDocuments s gds).chunks = s.chunks := by
  induction gds generalizing s with
  | nil => rfl
  | cons gd gds ih => simp [addGraphDocuments, List.foldl_cons] at ih ⊢; exact ih _

@[simp] theorem addGraphDocuments_partOf (s : DBState α) (gds : List GraphDocument) :
    (addGraphDocuments s gds).partOf = s.partOf := by
  induction gds generalizing s with
  | nil => rfl
  | cons gd gds ih => simp [addGraphDocuments, List.foldl_cons] at ih ⊢; exact ih _

@[simp] theorem addGraphDocuments_indexes (s : DBState α) (gds : List GraphDocument) :
    (addGraphDocuments s gds).indexes = s.indexes := by
  induction gds generalizing s with
  | nil => rfl
  | cons gd gds ih => simp [addGraphDocuments, List.foldl_cons] at ih ⊢; exact ih _

@[simp] theorem createVectorIndex_documents (s : DBState α) :
    (createVectorIndex s).documents = s.documents := by
  unfold createVectorIndex; split <;> rfl

@[simp] theorem createVectorIndex_chunks (s : DBState α) :
    (createVectorIndex s).chunks = s.chunks := by
  unfold createVectorIndex; split <;> rfl

@[simp] theorem createVectorIndex_partOf (s : DBState α) :
    (createVectorIndex s).partOf = s.partOf := by
  unfold createVectorIndex; split <;> rfl

@[simp] theorem createVectorIndex_entityNodes (s : DBState α) :
    (createVectorIndex s).entityNodes = s.entityNodes := by
  unfold createVectorIndex; split <;> rfl

@[simp] theorem createVectorIndex_entityRels (s : DBState α) :
    (createVectorIndex s).entityRels = s.entityRels := by
  unfold createVectorIndex; split <;> rfl

@[simp] theorem writeChunkQuery_entityNodes (s : DBState α) (fn cid t : String) (e : List α) :
    (writeChunkQuery s fn cid t e).entityNodes = s.entityNodes := by
  unfold writeChunkQuery; simp

@[simp] theorem writeChunkQuery_entityRels (s : DBState α) (fn cid t : String) (e : List α) :
    (writeChunkQuery s fn cid t e).entityRels = s.entityRels := by
  unfold writeChunkQuery; simp

@[simp] theorem writeChunkQuery_indexes (s : DBState α) (fn cid t : String) (e : List α) :
    (writeChunkQuery s fn cid t e).indexes = s.indexes := by
  unfold writeChunkQuery; simp

@[simp] theorem writeChunkQuery_documents (s : DBState α) (fn cid t : String) (e : List α) :
    (writeChunkQuery s fn cid t e).documents = (mergeDocument s fn).documents := by
  unfold writeChunkQuery; simp

/-! Membership in merged lists. -/

theorem mem_foldl_merge {β : Type} [DecidableEq β] (l : List β) (init : List β) (x : β) :
    x ∈ l.foldl (fun ns n => if n ∈ ns then ns else ns ++ [n]) init ↔ x ∈ init ∨ x ∈ l := by
  induction l generalizing init with
  | nil => simp
  | cons a as ih =>
    rw [List.foldl_cons, ih]
    by_cases h : a ∈ init
    · simp only [if_pos h, List.mem_cons]
      constructor
      · rintro (hx | hx)
        · exact Or.inl hx
        · exact Or.inr (Or.inr hx)
      · rintro (hx | rfl | hx)
        · exact Or.inl hx
        · exact Or.inl h
        · exact Or.inr hx
    · simp only [if_neg h, List.mem_append, List.mem_singleton, List.mem_cons]
      tauto

theorem mem_documents_mergeDocument_self (s : DBState α) (fn : String) :
    fn ∈ (mergeDocument s fn).documents := by
  unfold mergeDocument; split
  · assumption
  · simp

theorem mem_documents_mergeDocument_mono (s : DBState α) (fn d : String)
    (h : d ∈ s.documents) : d ∈ (mergeDocument s fn).documents := by
  unfold mergeDocument; split
  · exact h
  · simp [h]

theorem mem_partOf_mergePartOf_self (s : DBState α) (cid fn : String) :
    (cid, fn) ∈ (mergePartOf s cid fn).partOf := by
  unfold mergePartOf; split
  · assumption
  · simp

theorem any_chunks_mergeChunk_self (s : DBState α) (cid : String) :
    (mergeChunk s cid).chunks.any (fun r => r.id = cid) = true := by
  unfold mergeChunk; split
  · assumption
  · rename_i h
    simp [List.any_append]

/-- The combined effect of the per-chunk write on the chunk rows: merge a
bare row for `cid` if absent, then set `text` and `textEmbedding` on every
row whose id is `cid`. -/
theorem chunks_writeChunkQuery (s : DBState α) (fn cid t : String) (e : List α) :
    (writeChunkQuery s fn cid t e).chunks =
      (mergeChunk (mergeDocument s fn) cid).chunks.map
        (fun r => if r.id = cid then { r with text := some t, textEmbedding := some e } else r) := by
  unfold writeChunkQuery
  simp only [setChunkEmbedding, mergePartOf_chunks, setChunkText, List.map_map]
  apply List.map_congr_left
  intro r _
  by_cases h : r.id = cid <;> simp [h]

/-- The per-chunk write leaves a row for `cid` whose text and embedding are
the written values. -/
theorem writeChunkQuery_row (s : DBState α) (fn cid t : String) (e : List α) :
    ∃ r ∈ (writeChunkQuery s fn cid t e).chunks,
      r.id = cid ∧ r.text = some t ∧ r.textEmbedding = some e := by
  have hany := any_chunks_mergeChunk_self (mergeDocument s fn) cid
  rw [List.any_eq_true] at hany
  obtain ⟨r0, hr0, hid⟩ := hany
  rw [decide_eq_true_eq] at hid
  refine ⟨{ r0 with text := some t, textEmbedding := some e }, ?_, by simpa using hid, rfl, rfl⟩
  rw [chunks_writeChunkQuery]
  refine List.mem_map.mpr ⟨r0, hr0, ?_⟩
  rw [if_pos hid]

/-- Ids of existing rows survive the per-chunk write. -/
theorem writeChunkQuery_id_mono (s : DBState α) (fn cid t : String) (e : List α)
    (r : ChunkRow α) (h : r ∈ s.chunks) :
    ∃ r2 ∈ (writeChunkQuery s fn cid t e).chunks, r2.id = r.id := by
  rw [chunks_writeChunkQuery]
  have hmem : r ∈ (mergeChunk (mergeDocument s fn) cid).chunks := by
    unfold mergeChunk; split
    · simpa using h
    · simp only [mergeDocument_chunks, List.mem_append]
      exact Or.inl h
  refine ⟨_, List.mem_map_of_mem _ hmem, ?_⟩
  by_cases hid : r.id = cid <;> simp [hid]

/-- Every row id after the per-chunk write is an old id or the written id. -/
theorem writeChunkQuery_id_bound (s : DBState α) (fn cid t : String) (e : List α)
    (r : ChunkRow α) (h : r ∈ (writeChunkQuery s fn cid t e).chunks) :
    r.id = cid ∨ ∃ r0 ∈ s.chunks, r.id = r0.id := by
  rw [chunks_writeChunkQuery] at h
  obtain ⟨r0, hr0, rfl⟩ := List.mem_map.mp h
  have hr0s : r0 ∈ s.chunks ∨ r0 = ({ id := cid, text := none, textEmbedding := none } : ChunkRow α) := by
    unfold mergeChunk at hr0
    split at hr0
    · left; simpa using hr0
    · have h3 : r0 ∈ s.chunks ∨ r0 = ({ id := cid, text := none, textEmbedding := none } : ChunkRow α) := by
        simpa using hr0
      exact h3
  by_cases hid : r0.id = cid
  · left; simp [hid]
  · rcases hr0s with h4 | h4
    · right; exact ⟨r0, h4, by simp [hid]⟩
    · rw [h4] at hid
      exact absurd rfl hid

/-! Idempotence of the per-chunk write. -/

theorem map_setText_writeChunkQuery (s : DBState α) (fn cid t : String) (e : List α) :
    (writeChunkQuery s fn cid t e).chunks.map
        (fun r => if r.id = cid then { r with text := some t } else r)
      = (writeChunkQuery s fn cid t e).chunks := by
  rw [chunks_writeChunkQuery, List.map_map]
  apply List.map_congr_left
  intro r _
  by_cases h : r.id = cid <;> simp [h]

theorem map_setEmbedding_writeChunkQuery (s : DBState α) (fn cid t : String) (e : List α) :
    (writeChunkQuery s fn cid t e).chunks.map
        (fun r => if r.id = cid then { r with textEmbedding := some e } else r)
      = (writeChunkQuery s fn cid t e).chunks := by
  rw [chunks_writeChunkQuery, List.map_map]
  apply List.map_congr_left
  intro r _
  by_cases h : r.id = cid <;> simp [h]

theorem writeChunkQuery_idem (s : DBState α) (fn cid t : String) (e : List α) :
    writeChunkQuery (writeChunkQuery s fn cid t e) fn cid t e
      = writeChunkQuery s fn cid t e := by
  have hfn : fn ∈ (writeChunkQuery s fn cid t e).documents := by
    rw [writeChunkQuery_documents]
    exact mem_documents_mergeDocument_self s fn
  have hany : ((writeChunkQuery s fn cid t e).chunks.any (fun r => r.id = cid)) = true := by
    obtain ⟨r, hr, hid, -, -⟩ := writeChunkQuery_row s fn cid t e
    rw [List.any_eq_true]
    exact ⟨r, hr, by simp [hid]⟩
  have hpo : (cid, fn) ∈ (writeChunkQuery s fn cid t e).partOf := by
    unfold writeChunkQuery
    rw [setChunkEmbedding_partOf]
    exact mem_partOf_mergePartOf_self _ cid fn
  have h1 : mergeDocument (writeChunkQuery s fn cid t e) fn = writeChunkQuery s fn cid t e := by
    unfold mergeDocument
    rw [if_pos hfn]
  have h2 : mergeChunk (writeChunkQuery s fn cid t e) cid = writeChunkQuery s fn cid t e := by
    unfold mergeChunk
    rw [if_pos hany]
  have h3 : setChunkText (writeChunkQuery s fn cid t e) cid t = writeChunkQuery s fn cid t e := by
    unfold setChunkText
    rw [map_setText_writeChunkQuery]
  have h4 : mergePartOf (writeChunkQuery s fn cid t e) cid fn = writeChunkQuery s fn cid t e := by
    unfold mergePartOf
    rw [if_pos hpo]
  have h5 : setChunkEmbedding (writeChunkQuery s fn cid t e) cid e = writeChunkQuery s fn cid t e := by
    unfold setChunkEmbedding
    rw [map_setEmbedding_writeChunkQuery]
  calc writeChunkQuery (writeChunkQuery s fn cid t e) fn cid t e
      = setChunkEmbedding (mergePartOf (setChunkText (mergeChunk (mergeDocument
          (writeChunkQuery s fn cid t e) fn) cid) cid t) cid fn) cid e := rfl
    _ = writeChunkQuery s fn cid t e := by rw [h1, h2, h3, h4, h5]

/-! Membership in the merged entity subgraph. -/

theorem mem_entityNodes_addGraphDocument (s : DBState α) (gd : GraphDocument) (n : GNode) :
    n ∈ (addGraphDocument s gd).entityNodes ↔ n ∈ s.entityNodes ∨ n ∈ gd.nodes := by
  unfold addGraphDocument
  exact mem_foldl_merge _ _ _

theorem mem_entityRels_addGraphDocument (s : DBState α) (gd : GraphDocument) (r : GRel) :
    r ∈ (addGraphDocument s gd).entityRels ↔ r ∈ s.entityRels ∨ r ∈ gd.relationships := by
  unfold addGraphDocument
  exact mem_foldl_merge _ _ _

theorem mem_entityRels_addGraphDocuments (s : DBState α) (gds : List GraphDocument) (r : GRel) :
    r ∈ (addGraphDocuments s gds).entityRels
      ↔ r ∈ s.entityRels ∨ ∃ gd ∈ gds, r ∈ gd.relationships := by
  induction gds generalizing s with
  | nil => simp [addGraphDocuments]
  | cons gd gds ih =>
    rw [show addGraphDocuments s (gd :: gds) = addGraphDocuments (addGraphDocument s gd) gds
          from rfl,
        ih, mem_entityRels_addGraphDocument]
    constructor
    · rintro ((h | h) | ⟨gd2, hg, hr⟩)
      · exact Or.inl h
      · exact Or.inr ⟨gd, List.mem_cons_self gd gds, h⟩
      · exact Or.inr ⟨gd2, List.mem_cons_of_mem gd hg, hr⟩
    · rintro (h | ⟨gd2, hg, hr⟩)
      · exact Or.inl (Or.inl h)
      · rcases List.mem_cons.mp hg with rfl | hg2
        · exact Or.inl (Or.inr hr)
        · exact Or.inr ⟨gd2, hg2, hr⟩

theorem mem_entityNodes_addGraphDocuments (s : DBState α) (gds : List GraphDocument) (n : GNode) :
    n ∈ (addGraphDocuments s gds).entityNodes
      ↔ n ∈ s.entityNodes ∨ ∃ gd ∈ gds, n ∈ gd.nodes := by
  induction gds generalizing s with
  | nil => simp [addGraphDocuments]
  | cons gd gds ih =>
    rw [show addGraphDocuments s (gd :: gds) = addGraphDocuments (addGraphDocument s gd) gds
          from rfl,
        ih, mem_entityNodes_addGraphDocument]
    constructor
    · rintro ((h | h) | ⟨gd2, hg, hn⟩)
      · exact Or.inl h
      · exact Or.inr ⟨gd, List.mem_cons_self gd gds, h⟩
      · exact Or.inr ⟨gd2, List.mem_cons_of_mem gd hg, hn⟩
    · rintro (h | ⟨gd2, hg, hn⟩)
      · exact Or.inl (Or.inl h)
      · rcases List.mem_cons.mp hg with rfl | hg2
        · exact Or.inl (Or.inr hn)
        · exact Or.inr ⟨gd2, hg2, hn⟩

/-! The loop body as state transformer and trace extension. -/

theorem processChunk_fst (embed : String → List α) (extract : Doc → List GraphDocument)
    (s : DBState α) (tr : List Event) (c : Doc) :
    (processChunk embed extract (s, tr) c).1
      = addGraphDocuments
          (writeChunkQuery s (basename c.source) (chunk_id c) c.page_content
            (embed c.page_content))
          ((extract c).map (attachEntities (chunk_id c))) := rfl

theorem processChunk_snd (embed : String → List α) (extract : Doc → List GraphDocument)
    (s : DBState α) (tr : List Event) (c : Doc) :
    (processChunk embed extract (s, tr) c).2
      = tr ++ [Event.embedE (chunk_id c), Event.writeChunkE (chunk_id c),
               Event.extractE (chunk_id c), Event.writeGraphE (chunk_id c)] := by
  simp [processChunk]

/-- The four events of one chunk, in the order the loop body performs them. -/
def chunkEvents (c : Doc) : List Event :=
  [Event.embedE (chunk_id c), Event.writeChunkE (chunk_id c),
   Event.extractE (chunk_id c), Event.writeGraphE (chunk_id c)]

theorem foldl_processChunk_snd (embed : String → List α) (extract : Doc → List GraphDocument)
    (chunks : List Doc) : ∀ (s : DBState α) (tr : List Event),
    (chunks.foldl (processChunk embed extract) (s, tr)).2
      = tr ++ chunks.flatMap chunkEvents := by
  induction chunks with
  | nil => intro s tr; simp
  | cons c cs ih =>
    intro s tr
    rw [List.foldl_cons,
        show processChunk embed extract (s, tr) c
          = ((processChunk embed extract (s, tr) c).1,
             (processChunk embed extract (s, tr) c).2) from rfl,
        ih, processChunk_snd]
    simp [chunkEvents, List.flatMap_cons, List.append_assoc]

theorem foldl_processChunk_indexes (embed : String → List α)
    (extract : Doc → List GraphDocument) (chunks : List Doc) :
    ∀ (s : DBState α) (tr : List Event),
    ((chunks.foldl (processChunk embed extract) (s, tr)).1).indexes = s.indexes := by
  induction chunks with
  | nil => intro s tr; rfl
  | cons c cs ih =>
    intro s tr
    rw [List.foldl_cons,
        show processChunk embed extract (s, tr) c
          = ((processChunk embed extract (s, tr) c).1,
             (processChunk embed extract (s, tr) c).2) from rfl,
        ih, processChunk_fst, addGraphDocuments_indexes, writeChunkQuery_indexes]

theorem mem_entityRels_processChunk_mono (embed : String → List α)
    (extract : Doc → List GraphDocument) (s : DBState α) (tr : List Event) (c : Doc)
    (r : GRel) (h : r ∈ s.entityRels) :
    r ∈ ((processChunk embed extract (s, tr) c).1).entityRels := by
  rw [processChunk_fst, mem_entityRels_addGraphDocuments]
  exact Or.inl (by rw [writeChunkQuery_entityRels]; exact h)

theorem mem_entityRels_foldl_mono (embed : String → List α)
    (extract : Doc → List GraphDocument) (chunks : List Doc) :
    ∀ (s : DBState α) (tr : List Event) (r : GRel), r ∈ s.entityRels →
    r ∈ ((chunks.foldl (processChunk embed extract) (s, tr)).1).entityRels := by
  induction chunks with
  | nil => intro s tr r h; exact h
  | cons c cs ih =>
    intro s tr r h
    rw [List.foldl_cons,
        show processChunk embed extract (s, tr) c
          = ((processChunk embed extract (s, tr) c).1,
             (processChunk embed extract (s, tr) c).2) from rfl]
    exact ih _ _ r (mem_entityRels_processChunk_mono embed extract s tr c r h)

theorem mem_entityRels_foldl_intro (embed : String → List α)
    (extract : Doc → List GraphDocument) (chunks : List Doc) :
    ∀ (s : DBState α) (tr : List Event) (c : Doc), c ∈ chunks →
    ∀ gd ∈ extract c, ∀ r ∈ (attachEntities (chunk_id c) gd).relationships,
    r ∈ ((chunks.foldl (processChunk embed extract) (s, tr)).1).entityRels := by
  induction chunks with
  | nil => intro s tr c hc; exact absurd hc (List.not_mem_nil c)
  | cons c0 cs ih =>
    intro s tr c hc gd hgd r hr
    rw [List.foldl_cons,
        show processChunk embed extract (s, tr) c0
          = ((processChunk embed extract (s, tr) c0).1,
             (processChunk embed extract (s, tr) c0).2) from rfl]
    rcases List.mem_cons.mp hc with rfl | hc2
    · apply mem_entityRels_foldl_mono
      rw [processChunk_fst, mem_entityRels_addGraphDocuments]
      exact Or.inr ⟨attachEntities (chunk_id c) gd,
        List.mem_map_of_mem (attachEntities (chunk_id c)) hgd, hr⟩
    · exact ih _ _ c hc2 gd hgd r hr

/-! Every stored chunk row carries an embedding of the model's length. -/

theorem mem_chunks_mergeChunk_cases (s : DBState α) (cid : String) (r : ChunkRow α)
    (h : r ∈ (mergeChunk s cid).chunks) :
    r ∈ s.chunks ∨ r = ({ id := cid, text := none, textEmbedding := none } : ChunkRow α) := by
  unfold mergeChunk at h
  split at h
  · exact Or.inl h
  · simpa using h

theorem writeChunkQuery_emb_cases (s : DBState α) (fn cid t : String) (e : List α)
    (r : ChunkRow α) (h : r ∈ (writeChunkQuery s fn cid t e).chunks) :
    r.textEmbedding = some e ∨ r ∈ s.chunks := by
  rw [chunks_writeChunkQuery] at h
  obtain ⟨r0, hr0, rfl⟩ := List.mem_map.mp h
  by_cases hid : r0.id = cid
  · left; simp [hid]
  · right
    rcases mem_chunks_mergeChunk_cases _ _ _ hr0 with h4 | h4
    · rw [mergeDocument_chunks] at h4
      simpa [hid] using h4
    · rw [h4] at hid
      exact absurd rfl hid

theorem foldl_emb_invariant (embed : String → List α) (extract : Doc → List GraphDocument)
    (hlen : ∀ t, (embed t).length = 1536) (chunks : List Doc) :
    ∀ (s : DBState α) (tr : List Event),
    (∀ r ∈ s.chunks, ∃ v, r.textEmbedding = some v ∧ v.length = 1536) →
    ∀ r ∈ ((chunks.foldl (processChunk embed extract) (s, tr)).1).chunks,
      ∃ v, r.textEmbedding = some v ∧ v.length = 1536 := by
  induction chunks with
  | nil => intro s tr hs r hr; exact hs r hr
  | cons c cs ih =>
    intro s tr hs r hr
    rw [List.foldl_cons,
        show processChunk embed extract (s, tr) c
          = ((processChunk embed extract (s, tr) c).1,
             (processChunk embed extract (s, tr) c).2) from rfl] at hr
    refine ih _ _ ?_ r hr
    intro r2 hr2
    rw [processChunk_fst, addGraphDocuments_chunks] at hr2
    rcases writeChunkQuery_emb_cases _ _ _ _ _ _ hr2 with h | h
    · exact ⟨embed c.page_content, h, hlen _⟩
    · exact hs r2 h

/-- Every chunk row id in the loop's final state is an id already present or
the `chunk_id` of one of the processed chunks. -/
theorem foldl_chunkIds (embed : String → List α) (extract : Doc → List GraphDocument)
    (chunks : List Doc) : ∀ (s : DBState α) (tr : List Event) (r : ChunkRow α),
    r ∈ ((chunks.foldl (processChunk embed extract) (s, tr)).1).chunks →
    (∃ r0 ∈ s.chunks, r.id = r0.id) ∨ ∃ c ∈ chunks, r.id = chunk_id c := by
  induction chunks with
  | nil => intro s tr r h; exact Or.inl ⟨r, h, rfl⟩
  | cons c cs ih =>
    intro s tr r h
    rw [List.foldl_cons,
        show processChunk embed extract (s, tr) c
          = ((processChunk embed extract (s, tr) c).1,
             (processChunk embed extract (s, tr) c).2) from rfl] at h
    rcases ih _ _ r h with ⟨r0, hr0, hid⟩ | ⟨c2, hc2, hid⟩
    · rw [processChunk_fst, addGraphDocuments_chunks] at hr0
      rcases writeChunkQuery_id_bound _ _ _ _ _ r0 hr0 with h2 | ⟨r1, hr1, h2⟩
      · exact Or.inr ⟨c, List.mem_cons_self c cs, hid.trans h2⟩
      · exact Or.inl ⟨r1, hr1, hid.trans h2⟩
    · exact Or.inr ⟨c2, List.mem_cons_of_mem c hc2, hid⟩

/-! Decimal rendering and chunk-id injectivity. -/

theorem digitChar_ne_dot : ∀ d < 10, Nat.digitChar d ≠ '.' := by decide

theorem digitChar_injOn : ∀ d1 < 10, ∀ d2 < 10,
    Nat.digitChar d1 = Nat.digitChar d2 → d1 = d2 := by decide

theorem digitChar_eq_zero : ∀ d < 10, Nat.digitChar d = '0' → d = 0 := by decide

theorem natStr_no_dot (n : Nat) : '.' ∉ (natStr n).data := by
  unfold natStr
  split
  · decide
  · intro hmem
    have hmem2 : '.' ∈ (Nat.digits 10 n).map Nat.digitChar := by
      rw [← List.mem_reverse]
      exact hmem
    obtain ⟨d, hd, hdc⟩ := List.mem_map.mp hmem2
    exact digitChar_ne_dot d (Nat.digits_lt_base (by norm_num) hd) hdc

theorem map_digitChar_inj : ∀ (l1 l2 : List Nat), (∀ d ∈ l1, d < 10) → (∀ d ∈ l2, d < 10) →
    l1.map Nat.digitChar = l2.map Nat.digitChar → l1 = l2 := by
  intro l1
  induction l1 with
  | nil =>
    intro l2 _ _ h
    cases l2 with
    | nil => rfl
    | cons b bs => simp at h
  | cons a as ih =>
    intro l2 h1 h2 h
    cases l2 with
    | nil => simp at h
    | cons b bs =>
      rw [List.map_cons, List.map_cons] at h
      injection h with hh ht
      rw [digitChar_injOn a (h1 a (List.mem_cons_self a as)) b (h2 b (List.mem_cons_self b bs)) hh,
          ih bs (fun d hd => h1 d (List.mem_cons_of_mem a hd))
            (fun d hd => h2 d (List.mem_cons_of_mem b hd)) ht]

theorem natStr_inj (m n : Nat) (hmn : natStr m = natStr n) : m = n := by
  have key : ∀ k, k ≠ 0 → natStr k ≠ "0" := by
    intro k hk h0
    have hdata : (((Nat.digits 10 k).map Nat.digitChar).reverse) = ['0'] := by
      have := congrArg String.data h0
      rw [show natStr k = String.mk (((Nat.digits 10 k).map Nat.digitChar).reverse) from by
            unfold natStr; rw [if_neg hk]] at h0
      exact congrArg String.data h0
    have h2 : (Nat.digits 10 k).map Nat.digitChar = ['0'] := by
      have := congrArg List.reverse hdata
      simpa using this
    rcases hds : Nat.digits 10 k with - | ⟨d, ds⟩
    · rw [hds] at h2; simp at h2
    · rw [hds, List.map_cons] at h2
      injection h2 with hh ht
      have hds_nil : ds = [] := by
        cases ds with
        | nil => rfl
        | cons x xs => simp at ht
      have hd10 : d < 10 :=
        Nat.digits_lt_base (by norm_num) (by rw [hds]; exact List.mem_cons_self d ds)
      have hd0 : d = 0 := digitChar_eq_zero d hd10 hh
      have : k = 0 := by
        have := Nat.ofDigits_digits 10 k
        rw [hds, hds_nil, hd0] at this
        simpa using this.symm
      exact hk this
  by_cases hm : m = 0 <;> by_cases hn : n = 0
  · rw [hm, hn]
  · exfalso
    apply key n hn
    rw [← hmn, hm]
    unfold natStr
    rw [if_pos rfl]
  · exfalso
    apply key m hm
    rw [hmn, hn]
    unfold natStr
    rw [if_pos rfl]
  · have h1 : natStr m = String.mk (((Nat.digits 10 m).map Nat.digitChar).reverse) := by
      unfold natStr; rw [if_neg hm]
    have h2 : natStr n = String.mk (((Nat.digits 10 n).map Nat.digitChar).reverse) := by
      unfold natStr; rw [if_neg hn]
    rw [h1, h2] at hmn
    have hdata : (((Nat.digits 10 m).map Nat.digitChar).reverse)
        = (((Nat.digits 10 n).map Nat.digitChar).reverse) := congrArg String.data hmn
    have hmap : (Nat.digits 10 m).map Nat.digitChar = (Nat.digits 10 n).map Nat.digitChar := by
      have := congrArg List.reverse hdata
      simpa using this
    have hdig := map_digitChar_inj _ _
      (fun d hd => Nat.digits_lt_base (by norm_num) hd)
      (fun d hd => Nat.digits_lt_base (by norm_num) hd) hmap
    have := congrArg (Nat.ofDigits 10) hdig
    rwa [Nat.ofDigits_digits, Nat.ofDigits_digits] at this

theorem append_dot_cancel : ∀ (r1 s1 r2 s2 : List Char), '.' ∉ r1 → '.' ∉ r2 →
    r1 ++ '.' :: s1 = r2 ++ '.' :: s2 → r1 = r2 ∧ s1 = s2 := by
  intro r1
  induction r1 with
  | nil =>
    intro s1 r2 s2 _ h2 h
    cases r2 with
    | nil =>
      rw [List.nil_append, List.nil_append] at h
      injection h with _ ht
      exact ⟨rfl, ht⟩
    | cons c r2t =>
      exfalso
      rw [List.nil_append, List.cons_append] at h
      injection h with hh _
      exact h2 (hh ▸ List.mem_cons_self c r2t)
  | cons c r1t ih =>
    intro s1 r2 s2 h1 h2 h
    cases r2 with
    | nil =>
      exfalso
      rw [List.nil_append, List.cons_append] at h
      injection h with hh _
      exact h1 (hh ▸ List.mem_cons_self c r1t)
    | cons c2 r2t =>
      rw [List.cons_append, List.cons_append] at h
      injection h with hh ht
      obtain ⟨hr, hs⟩ := ih s1 r2t s2 (fun hm => h1 (List.mem_cons_of_mem c hm))
        (fun hm => h2 (List.mem_cons_of_mem c2 hm)) ht
      exact ⟨by rw [hh, hr], hs⟩

theorem reverse_append_dot (a b : List Char) :
    (a ++ '.' :: b).reverse = b.reverse ++ '.' :: a.reverse := by
  simp [List.reverse_append]

/-- Chunk ids collide exactly when the (filename, page) pairs coincide. -/
theorem chunk_id_eq_iff (c1 c2 : Doc) :
    chunk_id c1 = chunk_id c2
      ↔ (basename c1.source = basename c2.source ∧ c1.page = c2.page) := by
  constructor
  · intro h
    unfold chunk_id at h
    have hdata : (basename c1.source).data ++ '.' :: (natStr c1.page).data
        = (basename c2.source).data ++ '.' :: (natStr c2.page).data := by
      have := congrArg String.data h
      simpa [String.data_append] using this
    have hrev := congrArg List.reverse hdata
    rw [reverse_append_dot, reverse_append_dot] at hrev
    have hnd1 : '.' ∉ (natStr c1.page).data.reverse := by
      rw [List.mem_reverse]; exact natStr_no_dot c1.page
    have hnd2 : '.' ∉ (natStr c2.page).data.reverse := by
      rw [List.mem_reverse]; exact natStr_no_dot c2.page
    obtain ⟨hp, hb⟩ := append_dot_cancel _ _ _ _ hnd1 hnd2 hrev
    constructor
    · apply String.ext
      have := congrArg List.reverse hb
      simpa using this
    · apply natStr_inj
      apply String.ext
      have := congrArg List.reverse hp
      simpa using this
  · rintro ⟨h1, h2⟩
    unfold chunk_id
    rw [h1, h2]

/-! The splitter is purely mechanical: every character of every chunk comes
from the document's text or from the separator, and every chunk carries the
metadata of the document it came from. -/

theorem splitOnSep_chars (s0 : Char) (srest : List Char) :
    ∀ (fuel : Nat) (acc cs p : List Char), p ∈ splitOnSep s0 srest fuel acc cs →
    ∀ c ∈ p, c ∈ acc ∨ c ∈ cs := by
  intro fuel
  induction fuel with
  | zero =>
    intro acc cs p hp c hc
    rw [show splitOnSep s0 srest 0 acc cs = [acc.reverse] from rfl] at hp
    rw [List.mem_singleton] at hp
    subst hp
    exact Or.inl (List.mem_reverse.mp hc)
  | succ fuel ih =>
    intro acc cs p hp c hc
    cases cs with
    | nil =>
      rw [show splitOnSep s0 srest (fuel + 1) acc [] = [acc.reverse] from rfl] at hp
      rw [List.mem_singleton] at hp
      subst hp
      exact Or.inl (List.mem_reverse.mp hc)
    | cons ch ct =>
      rw [show splitOnSep s0 srest (fuel + 1) acc (ch :: ct)
            = if startsWithList (s0 :: srest) (ch :: ct) then
                acc.reverse :: splitOnSep s0 srest fuel [] (List.drop srest.length ct)
              else splitOnSep s0 srest fuel (ch :: acc) ct from rfl] at hp
      split at hp
      · rcases List.mem_cons.mp hp with rfl | hp2
        · exact Or.inl (List.mem_reverse.mp hc)
        · rcases ih [] _ p hp2 c hc with h | h
          · exact absurd h (List.not_mem_nil c)
          · exact Or.inr (List.mem_cons_of_mem ch (List.mem_of_mem_drop h))
      · rcases ih (ch :: acc) ct p hp c hc with h | h
        · rcases List.mem_cons.mp h with rfl | h2
          · exact Or.inr (List.mem_cons_self c ct)
          · exact Or.inl h2
        · exact Or.inr (List.mem_cons_of_mem ch h)

theorem mergeParts_chars (sep : List Char) (size ovl : Nat) :
    ∀ (ps : List (List Char)) (cur ck : List Char), ck ∈ mergeParts sep size ovl cur ps →
    ∀ c ∈ ck, c ∈ cur ∨ c ∈ sep ∨ ∃ p ∈ ps, c ∈ p := by
  intro ps
  induction ps with
  | nil =>
    intro cur ck hck c hc
    rw [show mergeParts sep size ovl cur [] = if cur.isEmpty then [] else [cur] from rfl] at hck
    split at hck
    · exact absurd hck (List.not_mem_nil ck)
    · rw [List.mem_singleton] at hck
      subst hck
      exact Or.inl hc
  | cons p ps ih =>
    intro cur ck hck c hc
    rw [show mergeParts sep size ovl cur (p :: ps)
          = (if (if cur.isEmpty then p else cur ++ sep ++ p).length ≤ size then
               mergeParts sep size ovl (if cur.isEmpty then p else cur ++ sep ++ p) ps
             else if cur.isEmpty then p :: mergeParts sep size ovl [] ps
             else cur :: mergeParts sep size ovl (lastN ovl cur ++ sep ++ p) ps) from rfl] at hck
    by_cases hemp : cur.isEmpty
    · simp only [hemp, if_true, ite_true] at hck
      split at hck
      · rcases ih p ck hck c hc with h | h | ⟨p2, hp2, hc2⟩
        · exact Or.inr (Or.inr ⟨p, List.mem_cons_self p ps, h⟩)
        · exact Or.inr (Or.inl h)
        · exact Or.inr (Or.inr ⟨p2, List.mem_cons_of_mem p hp2, hc2⟩)
      · rcases List.mem_cons.mp hck with rfl | hck2
        · exact Or.inr (Or.inr ⟨ck, List.mem_cons_self ck ps, hc⟩)
        · rcases ih [] ck hck2 c hc with h | h | ⟨p2, hp2, hc2⟩
          · exact absurd h (List.not_mem_nil c)
          · exact Or.inr (Or.inl h)
          · exact Or.inr (Or.inr ⟨p2, List.mem_cons_of_mem p hp2, hc2⟩)
    · simp only [hemp, Bool.false_eq_true, if_false, ite_false] at hck
      split at hck
      · rcases ih (cur ++ sep ++ p) ck hck c hc with h | h | ⟨p2, hp2, hc2⟩
        · rcases List.mem_append.mp h with h2 | h2
          · rcases List.mem_append.mp h2 with h3 | h3
            · exact Or.inl h3
            · exact Or.inr (Or.inl h3)
          · exact Or.inr (Or.inr ⟨p, List.mem_cons_self p ps, h2⟩)
        · exact Or.inr (Or.inl h)
        · exact Or.inr (Or.inr ⟨p2, List.mem_cons_of_mem p hp2, hc2⟩)
      · rcases List.mem_cons.mp hck with rfl | hck2
        · exact Or.inl hc
        · rcases ih (lastN ovl cur ++ sep ++ p) ck hck2 c hc with h | h | ⟨p2, hp2, hc2⟩
          · rcases List.mem_append.mp h with h2 | h2
            · rcases List.mem_append.mp h2 with h3 | h3
              · exact Or.inl (List.mem_of_mem_drop h3)
              · exact Or.inr (Or.inl h3)
            · exact Or.inr (Or.inr ⟨p, List.mem_cons_self p ps, h2⟩)
          · exact Or.inr (Or.inl h)
          · exact Or.inr (Or.inr ⟨p2, List.mem_cons_of_mem p hp2, hc2⟩)

theorem splitText_chars (sep : String) (size ovl : Nat) (text t : String)
    (ht : t ∈ splitText sep size ovl text) :
    ∀ c ∈ t.data, c ∈ text.data ∨ c ∈ sep.data := by
  intro c hc
  unfold splitText at ht
  split at ht
  · rw [List.mem_singleton] at ht
    subst ht
    exact Or.inl hc
  · rename_i s0 srest hsep
    obtain ⟨ck, hck, rfl⟩ := List.mem_map.mp ht
    rcases mergeParts_chars sep.data size ovl _ [] ck hck c hc with h | h | ⟨p, hp, hc2⟩
    · exact absurd h (List.not_mem_nil c)
    · exact Or.inr h
    · rcases splitOnSep_chars s0 srest _ [] text.data p hp c hc2 with h2 | h2
      · exact absurd h2 (List.not_mem_nil c)
      · exact Or.inl h2

/-- Every chunk of `split_documents` carries the source and page of the
document it came from, and its text characters come from that document's
text or the separator. -/
theorem split_documents_provenance (cfg : SplitterConfig) (docs : List Doc) (c : Doc)
    (hc : c ∈ split_documents cfg docs) :
    ∃ d ∈ docs, c.source = d.source ∧ c.page = d.page ∧
      ∀ ch ∈ c.page_content.data, ch ∈ d.page_content.data ∨ ch ∈ cfg.separator.data := by
  unfold split_documents at hc
  obtain ⟨d, hd, hmem⟩ := List.mem_flatMap.mp hc
  obtain ⟨t, ht, rfl⟩ := List.mem_map.mp hmem
  exact ⟨d, hd, rfl, rfl, fun ch hch => splitText_chars _ _ _ _ _ ht ch hch⟩

/-! No duplicate Document or Chunk nodes are ever created, and the index
statement is a no-op when the index exists. -/

theorem documents_nodup_writeChunkQuery (s : DBState α) (fn cid t : String) (e : List α)
    (h : s.documents.Nodup) : (writeChunkQuery s fn cid t e).documents.Nodup := by
  rw [writeChunkQuery_documents]
  unfold mergeDocument
  split
  · exact h
  · rename_i hmem
    rw [List.nodup_append]
    exact ⟨h, List.nodup_singleton fn, by
      intro a ha hfa
      rw [List.mem_singleton] at hfa
      exact hmem (hfa ▸ ha)⟩

theorem chunkIds_writeChunkQuery (s : DBState α) (fn cid t : String) (e : List α) :
    (writeChunkQuery s fn cid t e).chunks.map (fun r => r.id)
      = (mergeChunk (mergeDocument s fn) cid).chunks.map (fun r => r.id) := by
  rw [chunks_writeChunkQuery, List.map_map]
  apply List.map_congr_left
  intro r _
  by_cases h : r.id = cid <;> simp [h]

theorem chunkIds_nodup_writeChunkQuery (s : DBState α) (fn cid t : String) (e : List α)
    (h : (s.chunks.map (fun r => r.id)).Nodup) :
    ((writeChunkQuery s fn cid t e).chunks.map (fun r => r.id)).Nodup := by
  rw [chunkIds_writeChunkQuery]
  unfold mergeChunk
  split
  · rename_i hmem
    simpa using h
  · rename_i hmem
    simp only [mergeDocument_chunks] at hmem
    have hgoal : ((s.chunks
        ++ [({ id := cid, text := none, textEmbedding := none } : ChunkRow α)]).map
          (fun r => r.id)).Nodup := by
      rw [List.map_append, List.nodup_append]
      refine ⟨h, by simp, ?_⟩
      intro a ha hfa
      simp only [List.map_cons, List.map_nil, List.mem_singleton] at hfa
      subst hfa
      obtain ⟨r, hr, hrid⟩ := List.mem_map.mp ha
      apply hmem
      rw [List.any_eq_true]
      exact ⟨r, hr, by simp [hrid]⟩
    simpa using hgoal

theorem mem_indexes_createVectorIndex_of_nil (s : DBState α) (h : s.indexes = []) :
    chunkVectorIndex ∈ (createVectorIndex s).indexes := by
  simp [createVectorIndex, h]

theorem createVectorIndex_idem (s : DBState α) :
    createVectorIndex (createVectorIndex s) = createVectorIndex s := by
  unfold createVectorIndex
  by_cases h : (s.indexes.any (fun i => i.name = "chunkVector")) = true
  · rw [if_pos h, if_pos h]
  · rw [if_neg h]
    rw [if_pos (show ((({ s with indexes := s.indexes ++ [chunkVectorIndex] } : DBState α)).indexes.any
        (fun i => i.name = "chunkVector")) = true by simp [chunkVectorIndex])]

/-! ## Claim theorems -/

set_option maxRecDepth 80000 in
/-- C1, counterexample: a single CSV document whose text exceeds the chunk
size splits into two chunks that inherit the same `(source, page)` metadata,
so the two resulting chunk ids are equal — the chunk ids of a run are not
unique, contrary to the claim. -/
theorem chunkId_unique_cex :
    ¬ ((split_documents text_splitter [twoChunkDoc]).map chunk_id).Nodup := by
  decide

/-- C1 (amended): every chunk produced by the splitter carries the source
and page of the document it came from, and its chunk id is exactly
`basename(source) ++ "." ++ str(page)` of that document; chunk ids are
deterministic in `(filename, page)` and two chunk ids are equal exactly when
their `(filename, page)` pairs are equal — so ids are unique across distinct
`(filename, page)` pairs, but chunks sharing a pair (several chunks split
out of one document) share one id. -/
theorem chunkId_format_deterministic :
    (∀ (docs : List Doc) (c : Doc), c ∈ split_documents text_splitter docs →
      ∃ d ∈ docs, c.source = d.source ∧ c.page = d.page ∧
        chunk_id c = basename d.source ++ "." ++ natStr d.page) ∧
    (∀ c1 c2 : Doc, chunk_id c1 = chunk_id c2
      ↔ (basename c1.source = basename c2.source ∧ c1.page = c2.page)) := by
  constructor
  · intro docs c hc
    obtain ⟨d, hd, hs, hp, -⟩ := split_documents_provenance text_splitter docs c hc
    refine ⟨d, hd, hs, hp, ?_⟩
    unfold chunk_id
    rw [hs, hp]
  · exact chunk_id_eq_iff

/-- C1, witness: the amended theorem applied to the concrete one-document
input, whose single chunk is the document itself. -/
theorem chunkId_format_deterministic_witness :
    (∃ d ∈ [sampleDoc], sampleDoc.source = d.source ∧ sampleDoc.page = d.page ∧
      chunk_id sampleDoc = basename d.source ++ "." ++ natStr d.page) ∧
    (chunk_id sampleDoc = chunk_id twoChunkDoc
      ↔ (basename sampleDoc.source = basename twoChunkDoc.source
          ∧ sampleDoc.page = twoChunkDoc.page)) :=
  ⟨chunkId_format_deterministic.1 [sampleDoc] sampleDoc (by decide),
   chunkId_format_deterministic.2 sampleDoc twoChunkDoc⟩

/-- C3: running the per-chunk upsert twice with the same arguments gives the
same database state as running it once, and the upsert preserves
duplicate-freeness of Document ids and of Chunk ids, so re-running never
duplicates Document or Chunk nodes. -/
theorem perChunkWrite_idempotent (s : DBState α) (fn cid t : String) (e : List α) :
    writeChunkQuery (writeChunkQuery s fn cid t e) fn cid t e
        = writeChunkQuery s fn cid t e ∧
    (s.documents.Nodup → (writeChunkQuery s fn cid t e).documents.Nodup) ∧
    ((s.chunks.map (fun r => r.id)).Nodup →
      ((writeChunkQuery s fn cid t e).chunks.map (fun r => r.id)).Nodup) :=
  ⟨writeChunkQuery_idem s fn cid t e,
   documents_nodup_writeChunkQuery s fn cid t e,
   chunkIds_nodup_writeChunkQuery s fn cid t e⟩

/-- C3, witness: the idempotence theorem applied at a concrete write on the
empty database. -/
theorem perChunkWrite_idempotent_witness :
    writeChunkQuery (writeChunkQuery (DBState.empty Int) "a.csv" "a.csv.0" "hi" [])
        "a.csv" "a.csv.0" "hi" []
      = writeChunkQuery (DBState.empty Int) "a.csv" "a.csv.0" "hi" [] ∧
    (writeChunkQuery (DBState.empty Int) "a.csv" "a.csv.0" "hi" []).documents.Nodup ∧
    ((writeChunkQuery (DBState.empty Int) "a.csv" "a.csv.0" "hi" []).chunks.map
        (fun r => r.id)).Nodup :=
  ⟨(perChunkWrite_idempotent (DBState.empty Int) "a.csv" "a.csv.0" "hi" []).1,
   (perChunkWrite_idempotent (DBState.empty Int) "a.csv" "a.csv.0" "hi" []).2.1 (by decide),
   (perChunkWrite_idempotent (DBState.empty Int) "a.csv" "a.csv.0" "hi" []).2.2 (by decide)⟩

/-- C5, counterexample: in a concrete one-chunk run, the Document/Chunk
write is issued before that chunk's extraction, so the trace violates the
claimed per-chunk order "embed, then extract, then write" (under which no
write of a chunk may precede its extraction). -/
theorem chunkOrder_cex :
    noWriteBeforeExtract []
      (runPipeline zeroEmbed noExtract (DBState.empty Int) [sampleDoc]).2 = false := by
  decide

/-- C5 (amended): the run's trace is exactly, chunk after chunk in input
order, the four external operations of that chunk in the order embed, then
Document/Chunk write, then extract, then subgraph write, followed by the one
index statement — each chunk is fully processed before the next begins and
there is no interleaving between chunks. -/
theorem pipeline_trace_sequential (embed : String → List α)
    (extract : Doc → List GraphDocument) (s0 : DBState α) (chunks : List Doc) :
    (runPipeline embed extract s0 chunks).2
      = chunks.flatMap (fun c =>
          [Event.embedE (chunk_id c), Event.writeChunkE (chunk_id c),
           Event.extractE (chunk_id c), Event.writeGraphE (chunk_id c)])
        ++ [Event.createIndexE] := by
  show (chunks.foldl (processChunk embed extract) (s0, [])).2 ++ [Event.createIndexE] = _
  rw [foldl_processChunk_snd]
  rfl

/-- C6: the index statement is idempotent (guarded by IF NOT EXISTS), and in
every run it is issued exactly once, strictly after all chunk events, on the
state left by the chunk loop (which never touches the indexes). -/
theorem vectorIndex_once_idempotent (embed : String → List α)
    (extract : Doc → List GraphDocument) (s0 : DBState α) (chunks : List Doc)
    (s : DBState α) :
    createVectorIndex (createVectorIndex s) = createVectorIndex s ∧
    (runPipeline embed extract s0 chunks).2
      = (chunks.foldl (processChunk embed extract) (s0, [])).2 ++ [Event.createIndexE] ∧
    Event.createIndexE ∉ (chunks.foldl (processChunk embed extract) (s0, [])).2 ∧
    (runPipeline embed extract s0 chunks).2.count Event.createIndexE = 1 ∧
    (runPipeline embed extract s0 chunks).1
      = createVectorIndex ((chunks.foldl (processChunk embed extract) (s0, [])).1) ∧
    ((chunks.foldl (processChunk embed extract) (s0, [])).1).indexes = s0.indexes := by
  have htr := foldl_processChunk_snd embed extract chunks s0 []
  have hnot : Event.createIndexE ∉ (chunks.foldl (processChunk embed extract) (s0, [])).2 := by
    rw [htr]
    intro hmem
    rw [List.nil_append] at hmem
    obtain ⟨c, -, hmem2⟩ := List.mem_flatMap.mp hmem
    simp [chunkEvents] at hmem2
  refine ⟨createVectorIndex_idem s, rfl, hnot, ?_, rfl,
    foldl_processChunk_indexes embed extract chunks s0 []⟩
  show ((chunks.foldl (processChunk embed extract) (s0, [])).2
      ++ [Event.createIndexE]).count Event.createIndexE = 1
  rw [List.count_append, List.count_eq_zero.mpr hnot]
  rfl

/-- C7: the splitter configuration is exactly the fixed separator `"\n\n"`,
chunk size 1500 and overlap 200; the loader is configured with the CSV glob
over the configured directory; and splitting is purely mechanical — every
chunk inherits its document's metadata and every character of a chunk's text
comes from that document's text or from the fixed separator. -/
theorem splitter_mechanical_config :
    text_splitter.separator = "\n\n" ∧ text_splitter.chunk_size = 1500 ∧
    text_splitter.chunk_overlap = 200 ∧
    loader.path = "llm-knowledge-graph/data/course/csvs" ∧ loader.glob = "**/*.csv" ∧
    (∀ (docs : List Doc) (c : Doc), c ∈ split_documents text_splitter docs →
      ∃ d ∈ docs, c.source = d.source ∧ c.page = d.page ∧
        ∀ ch ∈ c.page_content.data,
          ch ∈ d.page_content.data ∨ ch ∈ text_splitter.separator.data) :=
  ⟨rfl, rfl, rfl, rfl, rfl,
   fun docs c hc => split_documents_provenance text_splitter docs c hc⟩

/-- C7, witness: the mechanical-splitting conjunct applied to the concrete
one-document input. -/
theorem splitter_mechanical_config_witness :
    ∃ d ∈ [sampleDoc], sampleDoc.source = d.source ∧ sampleDoc.page = d.page ∧
      ∀ ch ∈ sampleDoc.page_content.data,
        ch ∈ d.page_content.data ∨ ch ∈ text_splitter.separator.data :=
  splitter_mechanical_config.2.2.2.2.2 [sampleDoc] sampleDoc (by decide)

/-- C2: for every chunk of the run and every graph document extracted for
it, every extracted entity node ends up, in the final database state, with a
`HAS_ENTITY` relationship whose source is the node with the chunk's id and
type `Chunk` — so every extracted entity node has at least one `HAS_ENTITY`
relationship from some Chunk. -/
theorem hasEntity_for_every_node (embed : String → List α)
    (extract : Doc → List GraphDocument) (s0 : DBState α) (chunks : List Doc)
    (c : Doc) (hc : c ∈ chunks) (gd : GraphDocument) (hgd : gd ∈ extract c)
    (n : GNode) (hn : n ∈ gd.nodes) :
    ∃ r ∈ (runPipeline embed extract s0 chunks).1.entityRels,
      r.type = "HAS_ENTITY" ∧ r.source.id = chunk_id c ∧ r.source.type = "Chunk"
        ∧ r.target = n := by
  refine ⟨hasEntityRel (chunk_id c) n, ?_, rfl, rfl, rfl, rfl⟩
  show hasEntityRel (chunk_id c) n
    ∈ (createVectorIndex ((chunks.foldl (processChunk embed extract) (s0, [])).1)).entityRels
  rw [createVectorIndex_entityRels]
  apply mem_entityRels_foldl_intro embed extract chunks s0 [] c hc gd hgd
  exact List.mem_append.mpr (Or.inr (List.mem_map_of_mem (hasEntityRel (chunk_id c)) hn))

/-- C2, witness: the theorem applied to a concrete run with one chunk and
one extracted `Policy` node. -/
theorem hasEntity_for_every_node_witness :
    ∃ r ∈ (runPipeline zeroEmbed oneNodeExtract (DBState.empty Int) [sampleDoc]).1.entityRels,
      r.type = "HAS_ENTITY" ∧ r.source.id = chunk_id sampleDoc ∧ r.source.type = "Chunk"
        ∧ r.target = { id := "p1", type := "Policy" } :=
  hasEntity_for_every_node zeroEmbed oneNodeExtract (DBState.empty Int) [sampleDoc]
    sampleDoc (by decide)
    { nodes := [{ id := "p1", type := "Policy" }], relationships := [] } (by decide)
    { id := "p1", type := "Policy" } (by decide)

/-- C4: when the embedding model returns vectors of length 1536 (as
`text-embedding-ada-002` does), every Chunk row in the final database state
of a run started on the empty database carries an embedding vector of length
1536, and the declared vector index is the 1536-dimension cosine index on
`Chunk.textEmbedding`. -/
theorem chunk_embeddings_1536 (embed : String → List α)
    (extract : Doc → List GraphDocument) (chunks : List Doc)
    (hlen : ∀ t, (embed t).length = 1536) :
    (∀ r ∈ (runPipeline embed extract (DBState.empty α) chunks).1.chunks,
        ∃ v, r.textEmbedding = some v ∧ v.length = 1536) ∧
    chunkVectorIndex ∈ (runPipeline embed extract (DBState.empty α) chunks).1.indexes ∧
    chunkVectorIndex.dimensions = 1536 ∧ chunkVectorIndex.similarity = "cosine"
      ∧ chunkVectorIndex.label = "Chunk" ∧ chunkVectorIndex.prop = "textEmbedding" := by
  refine ⟨?_, ?_, rfl, rfl, rfl, rfl⟩
  · intro r hr
    rw [show (runPipeline embed extract (DBState.empty α) chunks).1
          = createVectorIndex
              ((chunks.foldl (processChunk embed extract) (DBState.empty α, [])).1) from rfl,
        createVectorIndex_chunks] at hr
    exact foldl_emb_invariant embed extract hlen chunks _ _
      (fun r2 hr2 => absurd hr2 (List.not_mem_nil r2)) r hr
  · show chunkVectorIndex ∈ (createVectorIndex
        ((chunks.foldl (processChunk embed extract) (DBState.empty α, [])).1)).indexes
    exact mem_indexes_createVectorIndex_of_nil _
      (foldl_processChunk_indexes embed extract chunks _ _)

/-- C4, witness: the theorem applied to a concrete run whose embedding
function returns the zero vector of length 1536. -/
theorem chunk_embeddings_1536_witness :
    (∀ r ∈ (runPipeline zeroEmbed noExtract (DBState.empty Int) [sampleDoc]).1.chunks,
        ∃ v, r.textEmbedding = some v ∧ v.length = 1536) ∧
    chunkVectorIndex ∈ (runPipeline zeroEmbed noExtract (DBState.empty Int) [sampleDoc]).1.indexes ∧
    chunkVectorIndex.dimensions = 1536 ∧ chunkVectorIndex.similarity = "cosine"
      ∧ chunkVectorIndex.label = "Chunk" ∧ chunkVectorIndex.prop = "textEmbedding" :=
  chunk_embeddings_1536 zeroEmbed noExtract [sampleDoc]
    (fun t => by simp only [zeroEmbed, List.length_replicate])

/-- C9: attaching the `HAS_ENTITY` relationships only appends — the nodes of
the graph document are unchanged, its relationship list becomes the original
list followed by exactly one `HAS_ENTITY` relationship per extracted node,
and every original node and relationship of every extracted graph document
is contained in the subgraph the loop body writes to the database. -/
theorem attach_appends_only (embed : String → List α)
    (extract : Doc → List GraphDocument) (s : DBState α) (tr : List Event) (c : Doc)
    (gd : GraphDocument) (hgd : gd ∈ extract c) :
    (attachEntities (chunk_id c) gd).nodes = gd.nodes ∧
    (attachEntities (chunk_id c) gd).relationships
      = gd.relationships ++ gd.nodes.map (hasEntityRel (chunk_id c)) ∧
    (attachEntities (chunk_id c) gd).relationships.length
      = gd.relationships.length + gd.nodes.length ∧
    (∀ n ∈ gd.nodes, n ∈ ((processChunk embed extract (s, tr) c).1).entityNodes) ∧
    (∀ r ∈ gd.relationships, r ∈ ((processChunk embed extract (s, tr) c).1).entityRels) := by
  refine ⟨rfl, rfl, by simp [attachEntities], ?_, ?_⟩
  · intro n hn
    rw [processChunk_fst, mem_entityNodes_addGraphDocuments]
    refine Or.inr ⟨attachEntities (chunk_id c) gd,
      List.mem_map_of_mem (attachEntities (chunk_id c)) hgd, hn⟩
  · intro r hr
    rw [processChunk_fst, mem_entityRels_addGraphDocuments]
    exact Or.inr ⟨attachEntities (chunk_id c) gd,
      List.mem_map_of_mem (attachEntities (chunk_id c)) hgd,
      List.mem_append.mpr (Or.inl hr)⟩

/-- C9, witness: the theorem applied to the concrete one-node extraction. -/
theorem attach_appends_only_witness :
    (attachEntities (chunk_id sampleDoc)
        { nodes := [{ id := "p1", type := "Policy" }], relationships := [] }).nodes
      = [{ id := "p1", type := "Policy" }] ∧
    (attachEntities (chunk_id sampleDoc)
        { nodes := [{ id := "p1", type := "Policy" }], relationships := [] }).relationships
      = [] ++ [({ id := "p1", type := "Policy" } : GNode)].map (hasEntityRel (chunk_id sampleDoc)) ∧
    (attachEntities (chunk_id sampleDoc)
        { nodes := [{ id := "p1", type := "Policy" }], relationships := [] }).relationships.length
      = List.length ([] : List GRel) + [({ id := "p1", type := "Policy" } : GNode)].length ∧
    (∀ n ∈ [({ id := "p1", type := "Policy" } : GNode)],
      n ∈ ((processChunk zeroEmbed oneNodeExtract (DBState.empty Int, []) sampleDoc).1).entityNodes) ∧
    (∀ r ∈ ([] : List GRel),
      r ∈ ((processChunk zeroEmbed oneNodeExtract (DBState.empty Int, []) sampleDoc).1).entityRels) :=
  attach_appends_only zeroEmbed oneNodeExtract (DBState.empty Int) [] sampleDoc
    { nodes := [{ id := "p1", type := "Policy" }], relationships := [] } (by decide)

/-- C8: any failure of an external call aborts the whole run with that
failure — a failing load fails the pipeline immediately; a failing chunk
aborts the loop with that chunk's error no matter what chunks follow (no
retry, no catch-and-continue); and a failure of the embedding call, of the
Document/Chunk write, of the extraction call or of the subgraph write each
aborts the loop body with that error. -/
theorem errors_abort_run {ε : Type} (load : Except ε (List Doc))
    (embed : String → Except ε (List α)) (extract : Doc → Except ε (List GraphDocument))
    (writeOk addOk : Doc → Option ε) (s0 : DBState α) :
    (∀ e : ε, load = .error e →
      runPipelineE load embed extract writeOk addOk s0 = .error (e, s0)) ∧
    (∀ (s : DBState α) (c : Doc) (cs : List Doc) (es : ε × DBState α),
      processChunkE embed extract writeOk addOk s c = .error es →
      runLoopE embed extract writeOk addOk s (c :: cs) = .error es) ∧
    (∀ (s : DBState α) (c : Doc) (e : ε), embed c.page_content = .error e →
      processChunkE embed extract writeOk addOk s c = .error (e, s)) ∧
    (∀ (s : DBState α) (c : Doc) (e : ε) (emb : List α), embed c.page_content = .ok emb →
      writeOk c = some e →
      processChunkE embed extract writeOk addOk s c = .error (e, s)) ∧
    (∀ (s : DBState α) (c : Doc) (e : ε) (emb : List α), embed c.page_content = .ok emb →
      writeOk c = none → extract c = .error e →
      processChunkE embed extract writeOk addOk s c
        = .error (e, writeChunkQuery s (basename c.source) (chunk_id c)
            c.page_content emb)) ∧
    (∀ (s : DBState α) (c : Doc) (e : ε) (emb : List α) (gds : List GraphDocument),
      embed c.page_content = .ok emb → writeOk c = none → extract c = .ok gds →
      addOk c = some e →
      processChunkE embed extract writeOk addOk s c
        = .error (e, writeChunkQuery s (basename c.source) (chunk_id c)
            c.page_content emb)) := by
  refine ⟨?_, ?_, ?_, ?_, ?_, ?_⟩
  · intro e he
    unfold runPipelineE
    rw [he]
  · intro s c cs es hpc
    unfold runLoopE
    rw [hpc]
  · intro s c e he
    unfold processChunkE
    rw [he]
  · intro s c e emb he hw
    unfold processChunkE
    rw [he, hw]
  · intro s c e emb he hw hx
    unfold processChunkE
    rw [he, hw, hx]
  · intro s c e emb gds he hw hx ha
    unfold processChunkE
    rw [he, hw, hx, ha]

/-- C8, witness: a run whose embedding call fails on the first chunk aborts
the whole loop with that error, regardless of the remaining chunks. -/
theorem errors_abort_run_witness :
    runLoopE (fun _ => (Except.error "boom" : Except String (List Int)))
        (fun _ => Except.ok []) (fun _ => none) (fun _ => none)
        (DBState.empty Int) [sampleDoc, twoChunkDoc]
      = .error ("boom", DBState.empty Int) :=
  (errors_abort_run (Except.ok []) (fun _ => (Except.error "boom" : Except String (List Int)))
      (fun _ => Except.ok []) (fun _ => none) (fun _ => none) (DBState.empty Int)).2.1
    (DBState.empty Int) sampleDoc [twoChunkDoc] ("boom", DBState.empty Int) rfl

/-- C10: the per-chunk processing is not atomic — Document node, Chunk node,
chunk text and embedding are written before extraction, so when extraction
(or the subsequent subgraph write) fails, the loop aborts in a state that
still contains the Document id, a Chunk row with the written text and
embedding, and every Document id and Chunk id present before the chunk was
processed. -/
theorem partial_writes_persist {ε : Type} (embed : String → Except ε (List α))
    (extract : Doc → Except ε (List GraphDocument)) (writeOk addOk : Doc → Option ε)
    (s : DBState α) (c : Doc) (emb : List α) :
    (∀ e : ε, embed c.page_content = .ok emb → writeOk c = none → extract c = .error e →
      processChunkE embed extract writeOk addOk s c
          = .error (e, writeChunkQuery s (basename c.source) (chunk_id c)
              c.page_content emb) ∧
      ∀ cs, runLoopE embed extract writeOk addOk s (c :: cs)
          = .error (e, writeChunkQuery s (basename c.source) (chunk_id c)
              c.page_content emb)) ∧
    (∀ (e : ε) (gds : List GraphDocument), embed c.page_content = .ok emb →
      writeOk c = none → extract c = .ok gds → addOk c = some e →
      processChunkE embed extract writeOk addOk s c
        = .error (e, writeChunkQuery s (basename c.source) (chunk_id c)
            c.page_content emb)) ∧
    basename c.source
      ∈ (writeChunkQuery s (basename c.source) (chunk_id c) c.page_content emb).documents ∧
    (∃ r ∈ (writeChunkQuery s (basename c.source) (chunk_id c) c.page_content emb).chunks,
      r.id = chunk_id c ∧ r.text = some c.page_content ∧ r.textEmbedding = some emb) ∧
    (∀ d ∈ s.documents,
      d ∈ (writeChunkQuery s (basename c.source) (chunk_id c) c.page_content emb).documents) ∧
    (∀ r ∈ s.chunks,
      ∃ r2 ∈ (writeChunkQuery s (basename c.source) (chunk_id c) c.page_content emb).chunks,
        r2.id = r.id) := by
  refine ⟨?_, ?_, ?_, ?_, ?_, ?_⟩
  · intro e he hw hx
    have hpc : processChunkE embed extract writeOk addOk s c
        = .error (e, writeChunkQuery s (basename c.source) (chunk_id c)
            c.page_content emb) := by
      unfold processChunkE
      rw [he, hw, hx]
    refine ⟨hpc, fun cs => ?_⟩
    unfold runLoopE
    rw [hpc]
  · intro e gds he hw hx ha
    unfold processChunkE
    rw [he, hw, hx, ha]
  · rw [writeChunkQuery_documents]
    exact mem_documents_mergeDocument_self s (basename c.source)
  · exact writeChunkQuery_row s (basename c.source) (chunk_id c) c.page_content emb
  · intro d hd
    rw [writeChunkQuery_documents]
    exact mem_documents_mergeDocument_mono s (basename c.source) d hd
  · exact writeChunkQuery_id_mono s (basename c.source) (chunk_id c) c.page_content emb

/-- C10, witness: the theorem applied to a concrete chunk whose extraction
call fails after the write: the error state contains the chunk's document
and its written row. -/
theorem partial_writes_persist_witness :
    (processChunkE (fun _ => (Except.ok (List.replicate 1536 (0 : Int))))
        (fun _ => (Except.error "llm down" : Except String (List GraphDocument)))
        (fun _ => none) (fun _ => none) (DBState.empty Int) sampleDoc
      = .error ("llm down",
          writeChunkQuery (DBState.empty Int) (basename sampleDoc.source)
            (chunk_id sampleDoc) sampleDoc.page_content (List.replicate 1536 (0 : Int)))) ∧
    basename sampleDoc.source
      ∈ (writeChunkQuery (DBState.empty Int) (basename sampleDoc.source)
          (chunk_id sampleDoc) sampleDoc.page_content
          (List.replicate 1536 (0 : Int))).documents ∧
    (∃ r ∈ (writeChunkQuery (DBState.empty Int) (basename sampleDoc.source)
          (chunk_id sampleDoc) sampleDoc.page_content
          (List.replicate 1536 (0 : Int))).chunks,
      r.id = chunk_id sampleDoc ∧ r.text = some sampleDoc.page_content
        ∧ r.textEmbedding = some (List.replicate 1536 (0 : Int))) :=
  ⟨((partial_writes_persist (fun _ => (Except.ok (List.replicate 1536 (0 : Int))))
      (fun _ => (Except.error "llm down" : Except String (List GraphDocument)))
      (fun _ => none) (fun _ => none) (DBState.empty Int) sampleDoc
      (List.replicate 1536 (0 : Int))).1 "llm down" rfl rfl rfl).1,
   (partial_writes_persist (fun _ => (Except.ok (List.replicate 1536 (0 : Int))))
      (fun _ => (Except.error "llm down" : Except String (List GraphDocument)))
      (fun _ => none) (fun _ => none) (DBState.empty Int) sampleDoc
      (List.replicate 1536 (0 : Int))).2.2.1,
   (partial_writes_persist (fun _ => (Except.ok (List.replicate 1536 (0 : Int))))
      (fun _ => (Except.error "llm down" : Except String (List GraphDocument)))
      (fun _ => none) (fun _ => none) (DBState.empty Int) sampleDoc
      (List.replicate 1536 (0 : Int))).2.2.2.1⟩

end KGPipeline
